import Mathlib

/-!
Verification of the Book.IA content-generation application.

This file gives a shallow embedding of the application's logic layer:

* the generation pipeline (`src/hooks/useContentGeneration.ts`,
  `generateContent`): validation, progress reporting, outline request,
  concurrent expansion requests collected with an all-style wait, the
  index sort, and publication of the chapter sequence;
* the outline parser (`src/utils/openAIService.ts`, `generateSubtopics`);
* the document exporter (`src/utils/pdfGenerator.ts`, `downloadPDF`):
  sanitization, heading heuristic, pagination with a running vertical
  cursor, and the page footer loop.

JavaScript string primitives (`trim`, `split`, the regex replaces used by
the source) are modelled executably on `List Char` so that every
definition evaluates by kernel reduction.
-/

namespace BookIA

/-! ## JavaScript string primitives -/

/-- The whitespace class used by JavaScript `trim` and the regex class
covered by the source's inputs (space, tab, newline, carriage return,
vertical tab, form feed). -/
def isJsSpace (c : Char) : Bool :=
  c = ' ' || c = '\t' || c = '\n' || c = '\r' || c = '\x0b' || c = '\x0c'

/-- JavaScript `String.prototype.trim` on a character list: drop leading
and trailing whitespace. -/
def trimChars (l : List Char) : List Char :=
  ((l.dropWhile isJsSpace).reverse.dropWhile isJsSpace).reverse

/-- JavaScript `String.prototype.trim`. -/
def jsTrim (s : String) : String := (trimChars s.data).asString

/-- JavaScript `String.prototype.split('\n')`: split at every newline,
keeping empty pieces. -/
def splitOnNl : List Char → List (List Char)
  | [] => [[]]
  | c :: rest =>
    if c = '\n' then [] :: splitOnNl rest
    else
      match splitOnNl rest with
      | [] => [[c]]
      | p :: ps => (c :: p) :: ps

/-- JavaScript `String.prototype.split('\n\n')`: split at every
non-overlapping occurrence of two consecutive newlines, scanning left to
right. -/
def splitOnNlNl : List Char → List (List Char)
  | [] => [[]]
  | '\n' :: '\n' :: rest => [] :: splitOnNlNl rest
  | c :: rest =>
    match splitOnNlNl rest with
    | [] => [[c]]
    | p :: ps => (c :: p) :: ps

/-- Worker for `normNewlines`; the flag records whether we are inside a
newline run whose replacement has already been emitted. -/
def normGo : Bool → List Char → List Char
  | _, [] => []
  | skipping, c :: rest =>
    if c = '\n' then
      if skipping then normGo true rest
      else '\n' :: '\n' :: normGo true rest
    else c :: normGo false rest

/-- JavaScript `replace(/\n+/g, '\n\n')`: every maximal run of newlines
becomes exactly two newlines. -/
def normNewlines (l : List Char) : List Char := normGo false l

/-! ## Data model of the generation pipeline

`Chapter`, `Progress` and `Mode` mirror `src/types/index.ts`. -/

/-- A generated content block: `{ title: string, content: string }`. -/
structure Chapter where
  title : String
  content : String
deriving DecidableEq

/-- The progress counter `{ current: number, total: number }`. -/
structure Progress where
  current : Nat
  total : Nat
deriving DecidableEq

/-- The generation mode `'ebook' | 'chapter'` (full-document versus
section-expansion). -/
inductive Mode where
  | ebook
  | chapter
deriving DecidableEq

/-- The intermediate record `{ title, content, index }` built by each
expansion promise before the final index sort. -/
structure TChapter where
  title : String
  content : String
  index : Nat
deriving DecidableEq

/-- The hook state owned by `useContentGeneration`: the `isGenerating`
flag, the progress counter and the published chapter list. -/
structure GenState where
  isGenerating : Bool
  progress : Progress
  chapters : List Chapter
deriving DecidableEq

/-- The hook's initial state: `useState(false)`, `useState({current: 0,
total: 0})`, `useState([])`. -/
def initialState : GenState :=
  { isGenerating := false, progress := ⟨0, 0⟩, chapters := [] }

/-- Observable actions performed by `generateContent`, in program order:
state setters, the two kinds of network request, and `alert` calls. -/
inductive GEvent where
  | setGenerating (b : Bool)
  | setProgress (p : Progress)
  | setChapters (cs : List Chapter)
  | outlineRequest
  | expandRequest (i : Nat)
  | alertMsg (s : String)
deriving DecidableEq

/-- Effect of one event on the hook state; network requests and alerts do
not change it. -/
def applyEvent (s : GenState) : GEvent → GenState
  | GEvent.setGenerating b => { s with isGenerating := b }
  | GEvent.setProgress p => { s with progress := p }
  | GEvent.setChapters cs => { s with chapters := cs }
  | _ => s

/-- Replay a list of events over a state. -/
def applyEvents (s : GenState) (evs : List GEvent) : GenState :=
  evs.foldl applyEvent s

/-- The network environment: the settled value of the outline request and
of the expansion request for each index.  `Except.error` models a thrown
or rejected call. -/
structure Env where
  outline : Except Unit (List String)
  content : Nat → Except Unit String

/-- `Promise.all`: fails if any promise rejects, otherwise yields the
values in input order. -/
def collectAll {α : Type} : List (Except Unit α) → Except Unit (List α)
  | [] => Except.ok []
  | Except.error e :: _ => Except.error e
  | Except.ok a :: rest => (collectAll rest).map (a :: ·)

/-- The record built inside each expansion promise (`.then` callback in
`generateContent`): mode-dependent title, content, originating index. -/
def tagOf (mode : Mode) (subs : List String) (i : Nat) (c : String) : TChapter :=
  { title :=
      if mode = Mode.ebook then
        "Chapter " ++ toString (i + 1) ++ ": " ++ subs.getD i ""
      else subs.getD i ""
    content := c
    index := i }

/-- `chapterResults.sort((a, b) => a.index - b.index)`. -/
def sortByIndex (l : List TChapter) : List TChapter :=
  List.insertionSort (fun a b => a.index ≤ b.index) l

/-- `.map(({ title, content }) => ({ title, content }))`: drop the index
tags. -/
def untagChapters (l : List TChapter) : List Chapter :=
  l.map (fun t => { title := t.title, content := t.content })

/-- Alert text of the validation failure branch. -/
def validationAlertText : String := "Please enter both topic and API key"

/-- Alert text of the catch branch. -/
def errorAlertText : String :=
  "Error generating content. Please check your API key and try again."

/-- Shallow embedding of `generateContent` from
`src/hooks/useContentGeneration.ts`: returns the events performed in
program order, and the outcome (`ok none` for the early validation
return, `ok (some cs)` for the returned chapter list, `error` for the
rethrown failure). -/
def generateContent (topic apiKey : String) (mode : Mode) (env : Env) :
    List GEvent × Except Unit (Option (List Chapter)) :=
  if jsTrim topic = "" || jsTrim apiKey = "" then
    ([GEvent.alertMsg validationAlertText], Except.ok none)
  else
    let ev0 : List GEvent :=
      [GEvent.setGenerating true, GEvent.setProgress ⟨0, 3⟩,
       GEvent.setChapters [], GEvent.setProgress ⟨1, 3⟩,
       GEvent.outlineRequest]
    match env.outline with
    | Except.error _ =>
      (ev0 ++ [GEvent.alertMsg errorAlertText, GEvent.setGenerating false],
        Except.error ())
    | Except.ok subtopics =>
      let n := subtopics.length
      let ev1 := ev0 ++ GEvent.setProgress ⟨2, 3⟩ ::
        (List.range n).map GEvent.expandRequest
      match collectAll
          ((List.range n).map (fun i => (env.content i).map (fun c => (i, c)))) with
      | Except.error _ =>
        (ev1 ++ [GEvent.alertMsg errorAlertText, GEvent.setGenerating false],
          Except.error ())
      | Except.ok results =>
        let generated :=
          untagChapters (sortByIndex
            (results.map (fun r => tagOf mode subtopics r.1 r.2)))
        (ev1 ++ [GEvent.setChapters generated, GEvent.setProgress ⟨3, 3⟩,
           GEvent.setGenerating false],
          Except.ok (some generated))

/-- The progress value an event publishes, if any. -/
def progressOf : GEvent → Option Progress
  | GEvent.setProgress p => some p
  | _ => none

/-- The sequence of progress values observed over a run: the initial
`{0,0}` from `useState`, followed by each `setProgress` argument. -/
def progressTrace (evs : List GEvent) : List Progress :=
  Progress.mk 0 0 :: evs.filterMap progressOf

/-- The chapter list of a successful outcome, `[]` otherwise. -/
def resultChapters (r : Except Unit (Option (List Chapter))) : List Chapter :=
  match r with
  | Except.ok (some cs) => cs
  | _ => []

/-- True on the two network-request event kinds. -/
def isNetworkEvent : GEvent → Bool
  | GEvent.outlineRequest => true
  | GEvent.expandRequest _ => true
  | _ => false

/-- The sequence published when the expansion results settle in the order
given by `order` (a permutation of the request indices): the settled
tagged records are sorted by originating index and untagged, exactly as
the source does after `Promise.all`. -/
def publishedSequence (mode : Mode) (subs : List String) (cf : Nat → String)
    (order : List Nat) : List Chapter :=
  untagChapters (sortByIndex (order.map (fun i => tagOf mode subs i (cf i))))

/-! ## Outline parser (`generateSubtopics`, `src/utils/openAIService.ts`) -/

/-- JavaScript `replace(/^\d+\.?\s*/, '')`: strip a leading digit run, an
optional dot, and following whitespace; leave the string unchanged when
it does not start with a digit. -/
def stripLeadingNumber (l : List Char) : List Char :=
  match l.takeWhile Char.isDigit with
  | [] => l
  | _ :: _ =>
    let rest := l.dropWhile Char.isDigit
    let rest :=
      match rest with
      | '.' :: r => r
      | r => r
    rest.dropWhile isJsSpace

/-- One line of the parser loop: `line.replace(/^\d+\.?\s*/, '').trim()`. -/
def cleanLine (line : String) : String :=
  jsTrim (stripLeadingNumber line.data).asString

/-- `content.split('\n').filter(line => line.trim())`. -/
def nonBlankLines (content : String) : List String :=
  ((splitOnNl content.data).map List.asString).filter
    (fun l => jsTrim l ≠ "")

/-- The parser's accumulation loop: push the cleaned line when it is
non-empty and fewer than 10 entries have been collected. -/
def subtopicsLoop : List String → List String → List String
  | [], acc => acc
  | line :: rest, acc =>
    let cleaned := cleanLine line
    if cleaned ≠ "" ∧ acc.length < 10 then
      subtopicsLoop rest (acc ++ [cleaned])
    else
      subtopicsLoop rest acc

/-- Shallow embedding of `generateSubtopics` applied to the response
text `choices[0].message.content`. -/
def generateSubtopics (content : String) : List String :=
  subtopicsLoop (nonBlankLines content) []

/-! ## Document exporter (`downloadPDF`, `src/utils/pdfGenerator.ts`) -/

/-- JavaScript `\w`: ASCII letters, digits, underscore. -/
def isWordChar (c : Char) : Bool :=
  ('A' ≤ c && c ≤ 'Z') || ('a' ≤ c && c ≤ 'z') || ('0' ≤ c && c ≤ '9') || c = '_'

/-- The markdown marker class `[#*_` ++ "`" ++ `]` removed by the first
body replace. -/
def isMarkdownChar (c : Char) : Bool :=
  c = '#' || c = '*' || c = '_' || c = Char.ofNat 96

/-- The class kept by the body replace `[^\w\s\.\,\!\?\:\;\(\)\-\n]`. -/
def isBodyAllowed (c : Char) : Bool :=
  isWordChar c || isJsSpace c || c = '.' || c = ',' || c = '!' || c = '?' ||
    c = ':' || c = ';' || c = '(' || c = ')' || c = '-' || c = '\n'

/-- The class kept by the title replace `[^\w\s:\-\(\)]`. -/
def isTitleAllowed (c : Char) : Bool :=
  isWordChar c || isJsSpace c || c = ':' || c = '-' || c = '(' || c = ')'

/-- The body sanitization chain on characters: remove markdown markers,
remove characters outside the allowed set, normalize newline runs. -/
def sanitizeBodyChars (l : List Char) : List Char :=
  normNewlines ((l.filter (fun c => !isMarkdownChar c)).filter isBodyAllowed)

/-- `chapter.content.replace(/[#*_`+"`"+`]/g, '').replace(/[^\w\s\.\,\!\?\:\;\(\)\-\n]/g, '').replace(/\n+/g, '\n\n')`. -/
def sanitizeBody (s : String) : String :=
  (sanitizeBodyChars s.data).asString

/-- `chapter.title.replace(/[^\w\s:\-\(\)]/g, '')`. -/
def sanitizeTitle (s : String) : String :=
  (s.data.filter isTitleAllowed).asString

/-- The sanitized body split on `'\n\n'` into paragraphs. -/
def bodyParas (content : String) : List String :=
  (splitOnNlNl (sanitizeBodyChars content.data)).map List.asString

/-- The heading heuristic regex `^[A-Z][^.]*$`: non-empty, first
character an ASCII capital, no period anywhere. -/
def headerMatch (s : String) : Bool :=
  match s.data with
  | [] => false
  | c :: rest => ('A' ≤ c && c ≤ 'Z') && rest.all (fun d => !(d = '.'))

/-- `paragraph.length < 80 && paragraph.match(/^[A-Z][^.]*$/)`. -/
def isHeaderPara (p : String) : Bool :=
  decide (p.length < 80) && headerMatch p

/-- Exporter layout state: current page count (`addPage` increments it),
the vertical cursor `yPosition`, the `(page, y)` position of every line
drawn by the cursor-checked layout loop, the `(page, y)` position of
every footer line, and the per-block record of whether the pre-title
page break fired. -/
structure PDFState where
  pages : Nat
  y : Nat
  drawn : List (Nat × Nat)
  footer : List (Nat × Nat)
  breaks : List Bool
deriving DecidableEq

/-- Draw one line through the cursor check: if the cursor exceeds
`pageHeight - 30`, add a page and reset to the top margin; then draw at
the cursor and advance it by `adv`. -/
def drawLn (ph adv : Nat) (st : PDFState) : PDFState :=
  if ph - 30 < st.y then
    { st with pages := st.pages + 1, y := 30 + adv
              drawn := st.drawn ++ [(st.pages + 1, 30)] }
  else
    { st with y := st.y + adv, drawn := st.drawn ++ [(st.pages, st.y)] }

/-- Draw each wrapped line with the same advance. -/
def drawList (ph adv : Nat) (lines : List String) (st : PDFState) : PDFState :=
  lines.foldl (fun s _ => drawLn ph adv s) st

/-- `yPosition += d` (spacing without a cursor check). -/
def addSpace (d : Nat) (st : PDFState) : PDFState :=
  { st with y := st.y + d }

/-- One paragraph of the body loop: skip blank paragraphs; apply the
heading heuristic; optional pre-heading spacing; draw the wrapped lines
(advance 8 for headings, 6 otherwise); post spacing (4 for headings, 8
otherwise). -/
def paragraphStep (ph : Nat) (wrap : String → List String) (st : PDFState)
    (para : String) : PDFState :=
  if jsTrim para = "" then st
  else
    let isH := isHeaderPara para
    let st1 := if isH then addSpace 8 st else st
    let st2 := drawList ph (if isH then 8 else 6) (wrap (jsTrim para)) st1
    addSpace (if isH then 4 else 8) st2

/-- The conditional pre-title page break: fires when
`index > 0 || mode === 'ebook'` and the cursor is past 50; the fired
flag is recorded in `breaks`. -/
def breakStep (mode : Mode) (idx : Nat) (st : PDFState) : PDFState :=
  let fired := (decide (0 < idx) || decide (mode = Mode.ebook)) && decide (50 < st.y)
  { (if fired then { st with pages := st.pages + 1, y := 30 } else st) with
    breaks := st.breaks ++ [fired] }

/-- The chapter title: sanitized, wrapped, drawn at advance 12, followed
by 8 extra spacing. -/
def titleStep (ph : Nat) (wrap : String → List String) (st : PDFState)
    (ch : Chapter) : PDFState :=
  addSpace 8 (drawList ph 12 (wrap (sanitizeTitle ch.title)) st)

/-- The body paragraph loop of one chapter. -/
def bodyStep (ph : Nat) (wrap : String → List String) (st : PDFState)
    (ch : Chapter) : PDFState :=
  (bodyParas ch.content).foldl (paragraphStep ph wrap) st

/-- One chapter of the exporter loop: the conditional pre-title page
break, the title, the body paragraphs, and 15 spacing between
chapters. -/
def chapterStep (ph : Nat) (wrap : String → List String) (mode : Mode)
    (idx : Nat) (st : PDFState) (ch : Chapter) : PDFState :=
  addSpace 15 (bodyStep ph wrap (titleStep ph wrap (breakStep mode idx st) ch) ch)

/-- `chapters.forEach((chapter, index) => ...)`. -/
def chaptersGo (ph : Nat) (wrap : String → List String) (mode : Mode) :
    Nat → List Chapter → PDFState → PDFState
  | _, [], st => st
  | idx, ch :: rest, st =>
    chaptersGo ph wrap mode (idx + 1) rest (chapterStep ph wrap mode idx st ch)

/-- The cover page (ebook mode only): its text is drawn at fixed
positions computed from the external text-measurement facility, outside
the cursor-checked layout loop modelled by `drawn`; its observable
effect on the layout is the forced `addPage` and the cursor reset. -/
def coverStep (st : PDFState) : PDFState :=
  { st with pages := st.pages + 1, y := 30 }

/-- The footer loop (ebook mode only): on every page a page-number line
at `pageHeight - 10`, and on every page but the first also the topic
line at `pageHeight - 10`. -/
def footerStep (ph : Nat) (st : PDFState) : PDFState :=
  { st with footer := ((List.range st.pages).flatMap
      (fun j => if j = 0 then [(1, ph - 10)] else [(j + 1, ph - 10), (j + 1, ph - 10)])) }

/-- The initial layout state: one page, cursor at the top margin. -/
def initPDF : PDFState :=
  { pages := 1, y := 30, drawn := [], footer := [], breaks := [] }

/-- Shallow embedding of `downloadPDF`: `ph` is the renderer's page
height and `wrap` its `splitTextToSize` text-wrapping facility at the
fixed content width (both external collaborators).  Ebook mode emits the
cover page before the chapter loop and the footers after it. -/
def downloadPDF (ph : Nat) (wrap : String → List String)
    (chapters : List Chapter) (mode : Mode) : PDFState :=
  if mode = Mode.ebook then
    footerStep ph (chaptersGo ph wrap mode 0 chapters (coverStep initPDF))
  else
    chaptersGo ph wrap mode 0 chapters initPDF

/-- The number of wrapped lines the body loop draws for one block: the
sum over non-blank paragraphs of the wrapped line count. -/
def paraLines (wrap : String → List String) (p : String) : Nat :=
  if jsTrim p = "" then 0 else (wrap (jsTrim p)).length

/-- Total wrapped line count of a block's body. -/
def blockWrappedLines (wrap : String → List String) (ch : Chapter) : Nat :=
  ((bodyParas ch.content).map (paraLines wrap)).sum

/-! ## Concrete scenarios used by witnesses and counterexamples -/

/-- The first five events of every validated run. -/
def startEvents : List GEvent :=
  [GEvent.setGenerating true, GEvent.setProgress ⟨0, 3⟩,
   GEvent.setChapters [], GEvent.setProgress ⟨1, 3⟩,
   GEvent.outlineRequest]

/-- An environment whose outline request fails. -/
def envFailAll : Env := ⟨Except.error (), fun _ => Except.error ()⟩

/-- An environment with a one-entry outline and successful expansions. -/
def envOkOne : Env := ⟨Except.ok ["a"], fun _ => Except.ok "x"⟩

/-- An environment with a two-entry outline and successful expansions. -/
def envOkTwo : Env := ⟨Except.ok ["a", "b"], fun i => Except.ok (toString i)⟩

/-- An environment whose outline succeeds but whose expansions fail. -/
def envExpandFails : Env := ⟨Except.ok ["a"], fun _ => Except.error ()⟩

/-- A concrete wrap function: one line per string. -/
def wrapOne : String → List String := fun s => [s]

/-- A concrete wrap function: fifty lines for any string. -/
def wrapFifty : String → List String := fun _ => List.replicate 50 "L"

instance : DecidableRel (fun a b : TChapter => a.index ≤ b.index) :=
  fun a b => Nat.decLe a.index b.index

instance : IsTotal TChapter (fun a b => a.index ≤ b.index) :=
  ⟨fun a b => Nat.le_total a.index b.index⟩

instance : IsTrans TChapter (fun a b => a.index ≤ b.index) :=
  ⟨fun _ _ _ => Nat.le_trans⟩

instance : IsAntisymm TChapter (fun a b => a.index < b.index) :=
  ⟨fun _ _ h1 h2 => absurd h1 (Nat.lt_asymm h2)⟩

/-! ## Pipeline lemmas -/

theorem applyEvents_append (s : GenState) (l1 l2 : List GEvent) :
    applyEvents s (l1 ++ l2) = applyEvents (applyEvents s l1) l2 :=
  List.foldl_append _ _ _ _

theorem applyEvents_expandMap (s : GenState) (l : List Nat) :
    applyEvents s (l.map GEvent.expandRequest) = s := by
  induction l generalizing s with
  | nil => rfl
  | cons a t ih =>
    simpa [applyEvents, applyEvent] using ih s

theorem generateContent_invalid (t k : String) (m : Mode) (env : Env)
    (hv : jsTrim t = "" ∨ jsTrim k = "") :
    generateContent t k m env = ([GEvent.alertMsg validationAlertText], Except.ok none) := by
  unfold generateContent
  rcases hv with h | h <;> simp [h]

theorem generateContent_outline_error (t k : String) (m : Mode) (env : Env)
    (ht : jsTrim t ≠ "") (hk : jsTrim k ≠ "") (ho : env.outline = Except.error ()) :
    generateContent t k m env =
      (startEvents ++ [GEvent.alertMsg errorAlertText, GEvent.setGenerating false],
        Except.error ()) := by
  unfold generateContent
  simp [ht, hk, ho, startEvents]

theorem generateContent_expand_error (t k : String) (m : Mode) (env : Env)
    (subs : List String) (ht : jsTrim t ≠ "") (hk : jsTrim k ≠ "")
    (ho : env.outline = Except.ok subs)
    (hc : collectAll ((List.range subs.length).map
        (fun i => (env.content i).map (fun c => (i, c)))) = Except.error ()) :
    generateContent t k m env =
      (startEvents ++ GEvent.setProgress ⟨2, 3⟩ ::
          (List.range subs.length).map GEvent.expandRequest ++
          [GEvent.alertMsg errorAlertText, GEvent.setGenerating false],
        Except.error ()) := by
  unfold generateContent
  simp [ht, hk, ho, hc, startEvents]

theorem generateContent_ok (t k : String) (m : Mode) (env : Env)
    (subs : List String) (results : List (Nat × String))
    (ht : jsTrim t ≠ "") (hk : jsTrim k ≠ "")
    (ho : env.outline = Except.ok subs)
    (hc : collectAll ((List.range subs.length).map
        (fun i => (env.content i).map (fun c => (i, c)))) = Except.ok results) :
    generateContent t k m env =
      (startEvents ++ GEvent.setProgress ⟨2, 3⟩ ::
          (List.range subs.length).map GEvent.expandRequest ++
          [GEvent.setChapters (untagChapters (sortByIndex
              (results.map (fun r => tagOf m subs r.1 r.2)))),
           GEvent.setProgress ⟨3, 3⟩, GEvent.setGenerating false],
        Except.ok (some (untagChapters (sortByIndex
          (results.map (fun r => tagOf m subs r.1 r.2)))))) := by
  unfold generateContent
  simp [ht, hk, ho, hc, startEvents]

theorem collectAll_map_ok {α β : Type} (l : List α) (f : α → Except Unit β)
    (g : α → β) (h : ∀ a ∈ l, f a = Except.ok (g a)) :
    collectAll (l.map f) = Except.ok (l.map g) := by
  induction l with
  | nil => rfl
  | cons a t ih =>
    have ha := h a (List.mem_cons_self a t)
    have ht' : ∀ x ∈ t, f x = Except.ok (g x) := fun x hx => h x (List.mem_cons_of_mem a hx)
    simp [collectAll, ha, ih ht', Except.map]

theorem sortByIndex_eq_of_perm (n : Nat) (f : Nat → TChapter)
    (hf : ∀ i, (f i).index = i) (l : List TChapter)
    (hp : l.Perm ((List.range n).map f)) :
    sortByIndex l = (List.range n).map f := by
  have hperm : (sortByIndex l).Perm ((List.range n).map f) :=
    (List.perm_insertionSort _ l).trans hp
  have hlt : List.Pairwise (fun a b : TChapter => a.index < b.index)
      ((List.range n).map f) :=
    (List.pairwise_lt_range n).map f (fun a b h => by simpa [hf] using h)
  have hne : List.Pairwise (fun a b : TChapter => a.index ≠ b.index)
      (sortByIndex l) :=
    (List.Perm.pairwise_iff (fun h => Ne.symm h) hperm).mpr
      (hlt.imp fun h => Nat.ne_of_lt h)
  have hle : List.Pairwise (fun a b : TChapter => a.index ≤ b.index)
      (sortByIndex l) :=
    List.sorted_insertionSort _ l
  have hslt : List.Pairwise (fun a b : TChapter => a.index < b.index)
      (sortByIndex l) :=
    (hle.and hne).imp fun h => Nat.lt_of_le_of_ne h.1 h.2
  exact List.eq_of_perm_of_sorted hperm hslt hlt

theorem generateContent_success_chapters (t k : String) (m : Mode) (env : Env)
    (subs : List String) (cf : Nat → String)
    (ht : jsTrim t ≠ "") (hk : jsTrim k ≠ "")
    (ho : env.outline = Except.ok subs)
    (henv : ∀ i, env.content i = Except.ok (cf i)) :
    resultChapters (generateContent t k m env).2 =
      (List.range subs.length).map (fun i =>
        Chapter.mk (if m = Mode.ebook then
            "Chapter " ++ toString (i + 1) ++ ": " ++ subs.getD i ""
          else subs.getD i "") (cf i)) := by
  have hc : collectAll ((List.range subs.length).map
      (fun i => (env.content i).map (fun c => (i, c)))) =
      Except.ok ((List.range subs.length).map (fun i => (i, cf i))) :=
    collectAll_map_ok _ _ _ (fun a _ => by rw [henv a]; rfl)
  rw [generateContent_ok t k m env subs _ ht hk ho hc]
  have hmm : ((List.range subs.length).map (fun i => (i, cf i))).map
      (fun r => tagOf m subs r.1 r.2) =
      (List.range subs.length).map (fun i => tagOf m subs i (cf i)) := by
    rw [List.map_map]; rfl
  rw [resultChapters, hmm,
    sortByIndex_eq_of_perm subs.length (fun i => tagOf m subs i (cf i))
      (fun _ => rfl) _ (List.Perm.refl _)]
  simp [untagChapters, tagOf, List.map_map]

theorem applyEvents_cons (s : GenState) (e : GEvent) (l : List GEvent) :
    applyEvents s (e :: l) = applyEvents (applyEvent s e) l := rfl

theorem getLast_append_pair (l : List GEvent) (a b : GEvent) :
    (l ++ [a, b]).getLast? = some b := by
  rw [show l ++ [a, b] = (l ++ [a]) ++ [b] by simp, List.getLast?_concat]

theorem filterMap_progressOf_expand (l : List Nat) :
    (l.map GEvent.expandRequest).filterMap progressOf = [] := by
  induction l with
  | nil => rfl
  | cons a t ih => simp [progressOf, ih]

/-! ## Claim theorems for the generation pipeline -/

/-- Claim C1: for every outline and every completion order of the n
expansion requests (modelled as a permutation of the request indices),
the published ContentBlock sequence is strictly index-ordered 0..n-1 —
block i is built from outline entry i — so the published result is
independent of the order in which the concurrent requests resolve. -/
theorem publishedSequence_index_ordered (mode : Mode) (subs : List String)
    (cf : Nat → String) (order : List Nat)
    (h : order.Perm (List.range subs.length)) :
    publishedSequence mode subs cf order =
      (List.range subs.length).map (fun i =>
        Chapter.mk (if mode = Mode.ebook then
            "Chapter " ++ toString (i + 1) ++ ": " ++ subs.getD i ""
          else subs.getD i "") (cf i)) := by
  unfold publishedSequence
  rw [sortByIndex_eq_of_perm subs.length (fun i => tagOf mode subs i (cf i))
    (fun _ => rfl) _ (h.map _)]
  simp [untagChapters, tagOf, List.map_map]

/-- Witness for C1 at a two-entry outline with the expansion results
settling in reversed order. -/
theorem publishedSequence_index_ordered_witness :
    publishedSequence Mode.ebook ["a", "b"] (fun i => toString i) [1, 0] =
      (List.range (["a", "b"] : List String).length).map (fun i =>
        Chapter.mk (if Mode.ebook = Mode.ebook then
            "Chapter " ++ toString (i + 1) ++ ": " ++ (["a", "b"] : List String).getD i ""
          else (["a", "b"] : List String).getD i "") (toString i)) :=
  publishedSequence_index_ordered Mode.ebook ["a", "b"] (fun i => toString i)
    [1, 0] (by decide)

/-- Claim C5: in every successful run, the i-th published block's title is
"Chapter {i+1}: {outline[i]}" in ebook (full-document) mode, and exactly
outline[i] in chapter (section-expansion) mode. -/
theorem chapter_title_format (t k : String) (m : Mode) (env : Env)
    (subs : List String) (cf : Nat → String) (i : Nat)
    (ht : jsTrim t ≠ "") (hk : jsTrim k ≠ "")
    (ho : env.outline = Except.ok subs)
    (henv : ∀ j, env.content j = Except.ok (cf j))
    (hi : i < subs.length) :
    ((resultChapters (generateContent t k m env).2).getD i (Chapter.mk "" "")).title =
      if m = Mode.ebook then "Chapter " ++ toString (i + 1) ++ ": " ++ subs.getD i ""
      else subs.getD i "" := by
  rw [generateContent_success_chapters t k m env subs cf ht hk ho henv,
    List.getD_eq_getElem?_getD, List.getElem?_map, List.getElem?_range hi]
  rfl

/-- Witness for C5: a two-entry outline in ebook mode, index 1. -/
theorem chapter_title_format_witness :
    ((resultChapters (generateContent "t" "k" Mode.ebook envOkTwo).2).getD 1
        (Chapter.mk "" "")).title =
      if Mode.ebook = Mode.ebook then
        "Chapter " ++ toString (1 + 1) ++ ": " ++ (["a", "b"] : List String).getD 1 ""
      else (["a", "b"] : List String).getD 1 "" :=
  chapter_title_format "t" "k" Mode.ebook envOkTwo ["a", "b"] (fun i => toString i) 1
    (by decide) (by decide) rfl (fun _ => rfl) (by decide)

/-- Claim C2 (amended): the progress sequence of a successful run is
exactly {0,0} → {0,3} → {1,3} → {2,3} → {3,3}: the run first resets the
counter to {0,3}, so `current` is non-decreasing overall and strictly
increasing only from the second transition on; `total` is 3 from the
first transition onward. -/
theorem progress_trace_success (t k : String) (m : Mode) (env : Env)
    (subs : List String) (cf : Nat → String)
    (ht : jsTrim t ≠ "") (hk : jsTrim k ≠ "")
    (ho : env.outline = Except.ok subs)
    (henv : ∀ j, env.content j = Except.ok (cf j)) :
    progressTrace (generateContent t k m env).1 =
      [⟨0, 0⟩, ⟨0, 3⟩, ⟨1, 3⟩, ⟨2, 3⟩, ⟨3, 3⟩] := by
  have hc : collectAll ((List.range subs.length).map
      (fun i => (env.content i).map (fun c => (i, c)))) =
      Except.ok ((List.range subs.length).map (fun i => (i, cf i))) :=
    collectAll_map_ok _ _ _ (fun a _ => by rw [henv a]; rfl)
  rw [generateContent_ok t k m env subs _ ht hk ho hc]
  simp [progressTrace, startEvents, filterMap_progressOf_expand, progressOf]

/-- Witness for the amended C2 at a concrete successful run. -/
theorem progress_trace_success_witness :
    progressTrace (generateContent "t" "k" Mode.ebook envOkOne).1 =
      [⟨0, 0⟩, ⟨0, 3⟩, ⟨1, 3⟩, ⟨2, 3⟩, ⟨3, 3⟩] :=
  progress_trace_success "t" "k" Mode.ebook envOkOne ["a"] (fun _ => "x")
    (by decide) (by decide) rfl (fun _ => rfl)

/-- Counterexample to C2 as stated: in a concrete successful run the
observed progress sequence is not {0,0} → {1,3} → {2,3} → {3,3}; the run
passes through the additional state {0,3}. -/
theorem progress_trace_counterexample :
    progressTrace (generateContent "t" "k" Mode.ebook envOkOne).1 ≠
      [⟨0, 0⟩, ⟨1, 3⟩, ⟨2, 3⟩, ⟨3, 3⟩] := by
  decide

theorem applyEvents_run_shape (s0 : GenState) (l : List Nat) (tail : List GEvent) :
    applyEvents s0 ((startEvents ++
        GEvent.setProgress ⟨2, 3⟩ :: l.map GEvent.expandRequest) ++ tail) =
      applyEvents (applyEvent (applyEvents s0 startEvents)
        (GEvent.setProgress ⟨2, 3⟩)) tail := by
  rw [applyEvents_append, applyEvents_append, applyEvents_cons, applyEvents_expandMap]

theorem genError_state (t k : String) (m : Mode) (env : Env) (s0 : GenState)
    (h : (generateContent t k m env).2 = Except.error ()) :
    (applyEvents s0 (generateContent t k m env).1).chapters = [] ∧
    (applyEvents s0 (generateContent t k m env).1).isGenerating = false ∧
    (generateContent t k m env).1.getLast? = some (GEvent.setGenerating false) := by
  by_cases hv : jsTrim t = "" ∨ jsTrim k = ""
  · rw [generateContent_invalid t k m env hv] at h
    exact absurd h (by simp)
  · push_neg at hv
    obtain ⟨ht, hk⟩ := hv
    cases ho : env.outline with
    | error e =>
      cases e
      rw [generateContent_outline_error t k m env ht hk ho]
      exact ⟨rfl, rfl, getLast_append_pair startEvents _ _⟩
    | ok subs =>
      cases hc : collectAll ((List.range subs.length).map
          (fun i => (env.content i).map (fun c => (i, c)))) with
      | error e =>
        cases e
        rw [generateContent_expand_error t k m env subs ht hk ho hc]
        have hshape : startEvents ++ GEvent.setProgress ⟨2, 3⟩ ::
            (List.range subs.length).map GEvent.expandRequest ++
            [GEvent.alertMsg errorAlertText, GEvent.setGenerating false] =
            (startEvents ++ GEvent.setProgress ⟨2, 3⟩ ::
              (List.range subs.length).map GEvent.expandRequest) ++
            [GEvent.alertMsg errorAlertText, GEvent.setGenerating false] := by
          simp
        refine ⟨?_, ?_, ?_⟩
        · dsimp only
          rw [applyEvents_run_shape s0 (List.range subs.length)]
          rfl
        · dsimp only
          rw [applyEvents_run_shape s0 (List.range subs.length)]
          rfl
        · dsimp only
          rw [hshape, getLast_append_pair]
      | ok results =>
        rw [generateContent_ok t k m env subs results ht hk ho hc] at h
        exact absurd h (by simp)

theorem getLast_append_triple (l : List GEvent) (a b c : GEvent) :
    (l ++ [a, b, c]).getLast? = some c := by
  rw [show l ++ [a, b, c] = ((l ++ [a]) ++ [b]) ++ [c] by simp, List.getLast?_concat]

theorem genValid_last_event (t k : String) (m : Mode) (env : Env)
    (ht : jsTrim t ≠ "") (hk : jsTrim k ≠ "") :
    (generateContent t k m env).1.getLast? = some (GEvent.setGenerating false) := by
  cases ho : env.outline with
  | error e =>
    cases e
    rw [generateContent_outline_error t k m env ht hk ho]
    exact getLast_append_pair startEvents _ _
  | ok subs =>
    cases hc : collectAll ((List.range subs.length).map
        (fun i => (env.content i).map (fun c => (i, c)))) with
    | error e =>
      cases e
      rw [generateContent_expand_error t k m env subs ht hk ho hc]
      exact getLast_append_pair _ _ _
    | ok results =>
      rw [generateContent_ok t k m env subs results ht hk ho hc]
      exact getLast_append_triple _ _ _ _

/-- Claim C4: whenever the outline request or any expansion request
fails, the run settles with an empty published chapter list and a false
in-progress flag, with clearing the flag the failing run's last action;
and on every exit path past validation — success or failure alike —
clearing the in-progress flag is the last action of the run. -/
theorem failure_clears_state (t k : String) (m : Mode) (env : Env) (s0 : GenState) :
    ((generateContent t k m env).2 = Except.error () →
      (applyEvents s0 (generateContent t k m env).1).chapters = [] ∧
      (applyEvents s0 (generateContent t k m env).1).isGenerating = false ∧
      (generateContent t k m env).1.getLast? = some (GEvent.setGenerating false)) ∧
    (jsTrim t ≠ "" → jsTrim k ≠ "" →
      (generateContent t k m env).1.getLast? = some (GEvent.setGenerating false)) :=
  ⟨fun h => genError_state t k m env s0 h,
   fun ht hk => genValid_last_event t k m env ht hk⟩

/-- Witness for C4: a concrete run whose outline request fails, replayed
over the initial hook state, with both the failure-path and the
validated-path conjuncts discharged. -/
theorem failure_clears_state_witness :
    ((applyEvents initialState (generateContent "t" "k" Mode.ebook envFailAll).1).chapters = [] ∧
     (applyEvents initialState (generateContent "t" "k" Mode.ebook envFailAll).1).isGenerating = false ∧
     (generateContent "t" "k" Mode.ebook envFailAll).1.getLast? =
       some (GEvent.setGenerating false)) ∧
    (generateContent "t" "k" Mode.ebook envFailAll).1.getLast? =
      some (GEvent.setGenerating false) :=
  ⟨(failure_clears_state "t" "k" Mode.ebook envFailAll initialState).1 rfl,
   (failure_clears_state "t" "k" Mode.ebook envFailAll initialState).2
     (by decide) (by decide)⟩

/-- Claim C6: with an empty or whitespace-only topic or credential, the
pipeline performs no network request, its outcome is the early return,
and the hook state — in particular the progress value {0,0} — is
unchanged. -/
theorem validation_blocks (t k : String) (m : Mode) (env : Env)
    (h : jsTrim t = "" ∨ jsTrim k = "") :
    (generateContent t k m env).2 = Except.ok none ∧
    (∀ e ∈ (generateContent t k m env).1, isNetworkEvent e = false) ∧
    applyEvents initialState (generateContent t k m env).1 = initialState ∧
    (applyEvents initialState (generateContent t k m env).1).progress = ⟨0, 0⟩ := by
  rw [generateContent_invalid t k m env h]
  refine ⟨rfl, ?_, rfl, rfl⟩
  intro e he
  rw [List.mem_singleton.mp he]
  rfl

/-- Witness for C6: a whitespace-only topic with a valid credential. -/
theorem validation_blocks_witness :
    (generateContent " " "k" Mode.ebook envOkOne).2 = Except.ok none ∧
    (∀ e ∈ (generateContent " " "k" Mode.ebook envOkOne).1, isNetworkEvent e = false) ∧
    applyEvents initialState (generateContent " " "k" Mode.ebook envOkOne).1 = initialState ∧
    (applyEvents initialState (generateContent " " "k" Mode.ebook envOkOne).1).progress = ⟨0, 0⟩ :=
  validation_blocks " " "k" Mode.ebook envOkOne (Or.inl (by decide))

/-- Claim C10: every validated run clears the published chapter list
(third action) before the first network request (fifth action), so a
failing run settles with an empty list rather than the previous run's
chapters, whatever state the hook started in. -/
theorem chapters_cleared_before_network (t k : String) (m : Mode) (env : Env)
    (s0 : GenState) (ht : jsTrim t ≠ "") (hk : jsTrim k ≠ "") :
    (∃ rest, (generateContent t k m env).1 =
      GEvent.setGenerating true :: GEvent.setProgress ⟨0, 3⟩ ::
      GEvent.setChapters [] :: GEvent.setProgress ⟨1, 3⟩ ::
      GEvent.outlineRequest :: rest) ∧
    ((generateContent t k m env).2 = Except.error () →
      (applyEvents s0 (generateContent t k m env).1).chapters = []) := by
  constructor
  · cases ho : env.outline with
    | error e =>
      cases e
      rw [generateContent_outline_error t k m env ht hk ho]
      exact ⟨_, rfl⟩
    | ok subs =>
      cases hc : collectAll ((List.range subs.length).map
          (fun i => (env.content i).map (fun c => (i, c)))) with
      | error e =>
        cases e
        rw [generateContent_expand_error t k m env subs ht hk ho hc]
        exact ⟨_, rfl⟩
      | ok results =>
        rw [generateContent_ok t k m env subs results ht hk ho hc]
        exact ⟨_, rfl⟩
  · intro h
    exact (genError_state t k m env s0 h).1

/-- Witness for C10: a run that fails at the outline step, started from
a state still holding a previous run's chapter. -/
theorem chapters_cleared_before_network_witness :
    (∃ rest, (generateContent "t" "k" Mode.ebook envFailAll).1 =
      GEvent.setGenerating true :: GEvent.setProgress ⟨0, 3⟩ ::
      GEvent.setChapters [] :: GEvent.setProgress ⟨1, 3⟩ ::
      GEvent.outlineRequest :: rest) ∧
    ((generateContent "t" "k" Mode.ebook envFailAll).2 = Except.error () →
      (applyEvents (GenState.mk true ⟨3, 3⟩ [Chapter.mk "old" "old"])
        (generateContent "t" "k" Mode.ebook envFailAll).1).chapters = []) :=
  chapters_cleared_before_network "t" "k" Mode.ebook envFailAll
    (GenState.mk true ⟨3, 3⟩ [Chapter.mk "old" "old"]) (by decide) (by decide)

/-! ## Claim theorems for the outline parser -/

theorem subtopicsLoop_spec (l : List String) :
    ∀ acc : List String, subtopicsLoop l acc =
      acc ++ ((l.map cleanLine).filter (fun s => s ≠ "")).take (10 - acc.length) := by
  induction l with
  | nil => intro acc; simp [subtopicsLoop]
  | cons x rest ih =>
    intro acc
    by_cases hx : cleanLine x = ""
    · rw [subtopicsLoop]
      have hcond : ¬(cleanLine x ≠ "" ∧ acc.length < 10) := by simp [hx]
      rw [if_neg hcond, ih acc]
      simp [hx]
    · by_cases hlen : acc.length < 10
      · rw [subtopicsLoop, if_pos ⟨hx, hlen⟩, ih (acc ++ [cleanLine x])]
        have h1 : 10 - acc.length = (10 - (acc.length + 1)) + 1 := by omega
        simp only [List.map_cons, List.filter_cons, hx, decide_not,
          List.length_append, List.length_cons, List.length_nil]
        rw [h1]
        simp [hx, List.take_succ_cons, List.append_assoc]
      · rw [subtopicsLoop]
        have hcond : ¬(cleanLine x ≠ "" ∧ acc.length < 10) := fun hh => hlen hh.2
        rw [if_neg hcond, ih acc]
        have h0 : 10 - acc.length = 0 := by omega
        simp [h0]

/-- Claim C3 (amended): `generateSubtopics` splits the response on line
breaks, discards blank lines, strips each remaining line's leading
"number, optional dot, whitespace" prefix and trims it, additionally
discards lines that become empty after that cleaning, and keeps the
first 10 surviving entries; the result length therefore equals the
number of non-blank lines only when every non-blank line survives
cleaning and there are at most 10 of them. -/
theorem generateSubtopics_spec (content : String) :
    generateSubtopics content =
      (((nonBlankLines content).map cleanLine).filter (fun s => s ≠ "")).take 10 ∧
    ((∀ l ∈ nonBlankLines content, cleanLine l ≠ "") →
      (nonBlankLines content).length ≤ 10 →
      (generateSubtopics content).length = (nonBlankLines content).length) := by
  have h1 : generateSubtopics content =
      (((nonBlankLines content).map cleanLine).filter (fun s => s ≠ "")).take 10 := by
    rw [generateSubtopics, subtopicsLoop_spec]
    simp
  refine ⟨h1, fun hall hlen => ?_⟩
  have hfilter : ((nonBlankLines content).map cleanLine).filter (fun s => s ≠ "") =
      (nonBlankLines content).map cleanLine := by
    rw [List.filter_eq_self]
    intro a ha
    obtain ⟨b, hb, rfl⟩ := List.mem_map.mp ha
    simpa using hall b hb
  rw [h1, hfilter, List.take_of_length_le (by simpa using hlen), List.length_map]

/-- Witness for the amended C3 at a well-formed numbered response. -/
theorem generateSubtopics_spec_witness :
    (generateSubtopics "1. a\n2. b" =
      (((nonBlankLines "1. a\n2. b").map cleanLine).filter (fun s => s ≠ "")).take 10) ∧
    (generateSubtopics "1. a\n2. b").length = (nonBlankLines "1. a\n2. b").length :=
  ⟨(generateSubtopics_spec "1. a\n2. b").1,
   (generateSubtopics_spec "1. a\n2. b").2 (by decide) (by decide)⟩

/-- Counterexample to C3 as stated: the response "1.\nfoo" has two
non-blank lines, but the parser returns only ["foo"]: the line "1."
becomes empty once its numbering is stripped and is dropped by the
`if (cleaned && ...)` guard, so the result length is not the number of
non-blank lines. -/
theorem generateSubtopics_counterexample :
    (nonBlankLines "1.\nfoo").length = 2 ∧ generateSubtopics "1.\nfoo" = ["foo"] := by
  decide

/-! ## Claim theorems for the exporter sanitization -/

theorem normGo_idem (l : List Char) :
    normGo false (normGo false l) = normGo false l ∧
    normGo true (normGo true l) = normGo true l := by
  induction l with
  | nil => exact ⟨rfl, rfl⟩
  | cons c rest ih =>
    by_cases hc : c = '\n'
    · subst hc
      refine ⟨?_, ?_⟩
      · simp [normGo, ih.2]
      · simp [normGo, ih.2]
    · refine ⟨?_, ?_⟩
      · simp [normGo, hc, ih.1]
      · simp [normGo, hc, ih.1]

theorem mem_normGo (b : Bool) (l : List Char) (a : Char)
    (h : a ∈ normGo b l) : a ∈ l ∨ a = '\n' := by
  induction l generalizing b with
  | nil => simp [normGo] at h
  | cons c rest ih =>
    by_cases hc : c = '\n'
    · subst hc
      cases b with
      | true =>
        simp only [normGo, if_pos rfl, if_pos trivial] at h
        rcases ih true (by simpa using h) with h' | h'
        · exact Or.inl (List.mem_cons_of_mem _ h')
        · exact Or.inr h'
      | false =>
        simp [normGo] at h
        rcases h with h | h
        · exact Or.inr h
        · rcases ih true h with h' | h'
          · exact Or.inl (List.mem_cons_of_mem _ h')
          · exact Or.inr h'
    · simp [normGo, hc] at h
      rcases h with h | h
      · exact Or.inl (h ▸ List.mem_cons_self c rest)
      · rcases ih false h with h' | h'
        · exact Or.inl (List.mem_cons_of_mem _ h')
        · exact Or.inr h'

theorem sanitizeBodyChars_idem (l : List Char) :
    sanitizeBodyChars (sanitizeBodyChars l) = sanitizeBodyChars l := by
  unfold sanitizeBodyChars normNewlines
  set m := (l.filter (fun c => !isMarkdownChar c)).filter isBodyAllowed with hm
  have hmem : ∀ a ∈ normGo false m,
      (!isMarkdownChar a) = true ∧ isBodyAllowed a = true := by
    intro a ha
    rcases mem_normGo false m a ha with h' | h'
    · have h1 : a ∈ l.filter (fun c => !isMarkdownChar c) := List.mem_of_mem_filter h'
      have h2 := List.of_mem_filter h1
      have h3 := List.of_mem_filter h'
      exact ⟨h2, h3⟩
    · subst h'
      exact ⟨by decide, by decide⟩
  rw [List.filter_eq_self.mpr (fun a ha => (hmem a ha).1),
    List.filter_eq_self.mpr (fun a ha => (hmem a ha).2)]
  exact (normGo_idem m).1

/-- Claim C9: the exporter's sanitization transforms are idempotent:
applying the body transform (markdown-marker removal, allowed-set
filter, newline-run normalization) twice equals applying it once, and
likewise for the narrower title transform. -/
theorem sanitize_idempotent (s : String) :
    sanitizeBody (sanitizeBody s) = sanitizeBody s ∧
    sanitizeTitle (sanitizeTitle s) = sanitizeTitle s := by
  constructor
  · simp only [sanitizeBody]
    rw [show ((sanitizeBodyChars s.data).asString).data = sanitizeBodyChars s.data
        from rfl,
      sanitizeBodyChars_idem]
  · simp only [sanitizeTitle]
    rw [show ((s.data.filter isTitleAllowed).asString).data = s.data.filter isTitleAllowed
        from rfl,
      List.filter_eq_self.mpr (fun a ha => List.of_mem_filter ha)]

/-! ## Exporter layout lemmas -/

theorem drawLn_pages_le (ph adv : Nat) (st : PDFState) :
    st.pages ≤ (drawLn ph adv st).pages := by
  unfold drawLn
  split <;> simp

theorem drawLn_breaks (ph adv : Nat) (st : PDFState) :
    (drawLn ph adv st).breaks = st.breaks := by
  unfold drawLn
  split <;> rfl

theorem drawLn_footer (ph adv : Nat) (st : PDFState) :
    (drawLn ph adv st).footer = st.footer := by
  unfold drawLn
  split <;> rfl

theorem drawLn_y_ge (ph adv : Nat) (st : PDFState) (h : 30 ≤ st.y) :
    30 + adv ≤ (drawLn ph adv st).y := by
  unfold drawLn
  split
  · exact Nat.le_refl _
  · show 30 + adv ≤ st.y + adv
    omega

theorem drawLn_pages_eq (ph adv : Nat) (st : PDFState)
    (h : (drawLn ph adv st).pages = st.pages) :
    st.y ≤ ph - 30 ∧ (drawLn ph adv st).y = st.y + adv := by
  by_cases hb : ph - 30 < st.y
  · exfalso
    have hp : (drawLn ph adv st).pages = st.pages + 1 := by
      unfold drawLn
      rw [if_pos hb]
    omega
  · refine ⟨by omega, ?_⟩
    unfold drawLn
    rw [if_neg hb]

theorem drawList_pages_le (ph adv : Nat) (lines : List String) (st : PDFState) :
    st.pages ≤ (drawList ph adv lines st).pages := by
  induction lines generalizing st with
  | nil => exact Nat.le_refl _
  | cons l ls ih =>
    calc st.pages ≤ (drawLn ph adv st).pages := drawLn_pages_le ph adv st
    _ ≤ _ := ih (drawLn ph adv st)

theorem drawList_breaks (ph adv : Nat) (lines : List String) (st : PDFState) :
    (drawList ph adv lines st).breaks = st.breaks := by
  induction lines generalizing st with
  | nil => rfl
  | cons l ls ih => rw [drawList] at *; simpa [drawLn_breaks] using ih (drawLn ph adv st)

theorem drawList_footer (ph adv : Nat) (lines : List String) (st : PDFState) :
    (drawList ph adv lines st).footer = st.footer := by
  induction lines generalizing st with
  | nil => rfl
  | cons l ls ih => rw [drawList] at *; simpa [drawLn_footer] using ih (drawLn ph adv st)

theorem drawList_y_ge30 (ph adv : Nat) (lines : List String) (st : PDFState)
    (h : 30 ≤ st.y) : 30 ≤ (drawList ph adv lines st).y := by
  induction lines generalizing st with
  | nil => exact h
  | cons l ls ih =>
    exact ih (drawLn ph adv st) (le_trans (by omega) (drawLn_y_ge ph adv st h))

theorem drawList_y_ge_cons (ph adv : Nat) (lines : List String) (st : PDFState)
    (h : 30 ≤ st.y) (hne : lines ≠ []) :
    30 + adv ≤ (drawList ph adv lines st).y := by
  induction lines generalizing st with
  | nil => exact absurd rfl hne
  | cons l ls ih =>
    by_cases hls : ls = []
    · subst hls
      exact drawLn_y_ge ph adv st h
    · exact ih (drawLn ph adv st)
        (le_trans (by omega) (drawLn_y_ge ph adv st h)) hls

theorem drawList_count (ph adv : Nat) (h6 : 6 ≤ adv) (lines : List String)
    (st : PDFState) (hpg : (drawList ph adv lines st).pages = st.pages) :
    st.y + 6 * lines.length ≤ (drawList ph adv lines st).y ∧
    (lines ≠ [] → st.y + 6 * (lines.length - 1) ≤ ph - 30) := by
  induction lines generalizing st with
  | nil => exact ⟨by simp [drawList], fun h => absurd rfl h⟩
  | cons l ls ih =>
    have hstep : drawList ph adv (l :: ls) st = drawList ph adv ls (drawLn ph adv st) := rfl
    rw [hstep] at hpg ⊢
    have hmono := drawList_pages_le ph adv ls (drawLn ph adv st)
    have hmono2 := drawLn_pages_le ph adv st
    have hpg1 : (drawLn ph adv st).pages = st.pages := by omega
    obtain ⟨hb, hy⟩ := drawLn_pages_eq ph adv st hpg1
    have hpg2 : (drawList ph adv ls (drawLn ph adv st)).pages = (drawLn ph adv st).pages := by
      omega
    obtain ⟨ih1, ih2⟩ := ih (drawLn ph adv st) hpg2
    constructor
    · simp only [List.length_cons]
      rw [hy] at ih1
      omega
    · intro _
      by_cases hls : ls = []
      · subst hls
        simpa using hb
      · have h2 := ih2 hls
        rw [hy] at h2
        have hlen : 1 ≤ ls.length := List.length_pos.mpr hls
        simp only [List.length_cons]
        omega

theorem addSpace_pages (d : Nat) (st : PDFState) :
    (addSpace d st).pages = st.pages := rfl

theorem addSpace_y (d : Nat) (st : PDFState) :
    (addSpace d st).y = st.y + d := rfl

theorem addSpace_breaks (d : Nat) (st : PDFState) :
    (addSpace d st).breaks = st.breaks := rfl

theorem addSpace_footer (d : Nat) (st : PDFState) :
    (addSpace d st).footer = st.footer := rfl

theorem addSpace_drawn (d : Nat) (st : PDFState) :
    (addSpace d st).drawn = st.drawn := rfl

theorem paragraphStep_blank (ph : Nat) (wrap : String → List String)
    (st : PDFState) (para : String) (h : jsTrim para = "") :
    paragraphStep ph wrap st para = st := by
  unfold paragraphStep
  rw [if_pos h]

theorem paragraphStep_header (ph : Nat) (wrap : String → List String)
    (st : PDFState) (para : String) (hb : jsTrim para ≠ "")
    (hH : isHeaderPara para = true) :
    paragraphStep ph wrap st para =
      addSpace 4 (drawList ph 8 (wrap (jsTrim para)) (addSpace 8 st)) := by
  simp [paragraphStep, hb, hH]

theorem paragraphStep_nonheader (ph : Nat) (wrap : String → List String)
    (st : PDFState) (para : String) (hb : jsTrim para ≠ "")
    (hH : isHeaderPara para = false) :
    paragraphStep ph wrap st para =
      addSpace 8 (drawList ph 6 (wrap (jsTrim para)) st) := by
  simp [paragraphStep, hb, hH]

theorem paragraphStep_pages_le (ph : Nat) (wrap : String → List String)
    (st : PDFState) (para : String) :
    st.pages ≤ (paragraphStep ph wrap st para).pages := by
  by_cases hb : jsTrim para = ""
  · rw [paragraphStep_blank ph wrap st para hb]
  · by_cases hH : isHeaderPara para = true
    · rw [paragraphStep_header ph wrap st para hb hH, addSpace_pages]
      calc st.pages = (addSpace 8 st).pages := (addSpace_pages 8 st).symm
        _ ≤ _ := drawList_pages_le ph 8 (wrap (jsTrim para)) (addSpace 8 st)
    · rw [paragraphStep_nonheader ph wrap st para hb (Bool.not_eq_true _ |>.mp hH),
        addSpace_pages]
      exact drawList_pages_le ph 6 (wrap (jsTrim para)) st

theorem paragraphStep_breaks (ph : Nat) (wrap : String → List String)
    (st : PDFState) (para : String) :
    (paragraphStep ph wrap st para).breaks = st.breaks := by
  by_cases hb : jsTrim para = ""
  · rw [paragraphStep_blank ph wrap st para hb]
  · by_cases hH : isHeaderPara para = true
    · rw [paragraphStep_header ph wrap st para hb hH, addSpace_breaks,
        drawList_breaks, addSpace_breaks]
    · rw [paragraphStep_nonheader ph wrap st para hb (Bool.not_eq_true _ |>.mp hH),
        addSpace_breaks, drawList_breaks]

theorem paragraphStep_footer (ph : Nat) (wrap : String → List String)
    (st : PDFState) (para : String) :
    (paragraphStep ph wrap st para).footer = st.footer := by
  by_cases hb : jsTrim para = ""
  · rw [paragraphStep_blank ph wrap st para hb]
  · by_cases hH : isHeaderPara para = true
    · rw [paragraphStep_header ph wrap st para hb hH, addSpace_footer,
        drawList_footer, addSpace_footer]
    · rw [paragraphStep_nonheader ph wrap st para hb (Bool.not_eq_true _ |>.mp hH),
        addSpace_footer, drawList_footer]

theorem paragraphStep_y_ge (ph : Nat) (wrap : String → List String)
    (st : PDFState) (para : String) (h : 38 ≤ st.y) :
    38 ≤ (paragraphStep ph wrap st para).y := by
  by_cases hb : jsTrim para = ""
  · rw [paragraphStep_blank ph wrap st para hb]
    exact h
  · by_cases hH : isHeaderPara para = true
    · rw [paragraphStep_header ph wrap st para hb hH, addSpace_y]
      by_cases hw : wrap (jsTrim para) = []
      · rw [hw]
        show 38 ≤ (addSpace 8 st).y + 4
        rw [addSpace_y]
        omega
      · have := drawList_y_ge_cons ph 8 (wrap (jsTrim para)) (addSpace 8 st)
          (by rw [addSpace_y]; omega) hw
        omega
    · rw [paragraphStep_nonheader ph wrap st para hb (Bool.not_eq_true _ |>.mp hH),
        addSpace_y]
      by_cases hw : wrap (jsTrim para) = []
      · rw [hw]
        show 38 ≤ st.y + 8
        omega
      · have := drawList_y_ge_cons ph 6 (wrap (jsTrim para)) st (by omega) hw
        omega

theorem paragraphStep_count (ph : Nat) (wrap : String → List String)
    (st : PDFState) (para : String)
    (hpg : (paragraphStep ph wrap st para).pages = st.pages) :
    st.y + 6 * paraLines wrap para ≤ (paragraphStep ph wrap st para).y ∧
    (paraLines wrap para ≠ 0 →
      st.y + 6 * (paraLines wrap para - 1) ≤ ph - 30) := by
  by_cases hb : jsTrim para = ""
  · rw [paragraphStep_blank ph wrap st para hb]
    refine ⟨by simp [paraLines, hb], fun hk => absurd (by simp [paraLines, hb]) hk⟩
  · have hpl : paraLines wrap para = (wrap (jsTrim para)).length := by
      simp [paraLines, hb]
    have hne_of : paraLines wrap para ≠ 0 → wrap (jsTrim para) ≠ [] := by
      intro hk hh
      rw [hpl, hh] at hk
      exact hk rfl
    by_cases hH : isHeaderPara para = true
    · rw [paragraphStep_header ph wrap st para hb hH] at hpg ⊢
      rw [addSpace_pages] at hpg
      have hpg' : (drawList ph 8 (wrap (jsTrim para)) (addSpace 8 st)).pages =
          (addSpace 8 st).pages := by
        rw [addSpace_pages]
        exact hpg
      obtain ⟨hc1, hc2⟩ := drawList_count ph 8 (by omega) _ _ hpg'
      rw [addSpace_y] at hc1 hc2
      rw [addSpace_y, hpl]
      refine ⟨by omega, fun hk => ?_⟩
      have := hc2 (fun hh => hk (by rw [hh]; rfl))
      omega
    · rw [paragraphStep_nonheader ph wrap st para hb (Bool.not_eq_true _ |>.mp hH)]
        at hpg ⊢
      rw [addSpace_pages] at hpg
      obtain ⟨hc1, hc2⟩ := drawList_count ph 6 (by omega) _ _ hpg
      rw [addSpace_y, hpl]
      refine ⟨by omega, fun hk => ?_⟩
      have := hc2 (fun hh => hk (by rw [hh]; rfl))
      omega

theorem paraFold_pages_le (ph : Nat) (wrap : String → List String)
    (paras : List String) : ∀ st : PDFState,
    st.pages ≤ (paras.foldl (paragraphStep ph wrap) st).pages := by
  induction paras with
  | nil => intro st; exact Nat.le_refl _
  | cons p ps ih =>
    intro st
    rw [List.foldl_cons]
    exact le_trans (paragraphStep_pages_le ph wrap st p) (ih _)

theorem paraFold_breaks (ph : Nat) (wrap : String → List String)
    (paras : List String) : ∀ st : PDFState,
    (paras.foldl (paragraphStep ph wrap) st).breaks = st.breaks := by
  induction paras with
  | nil => intro st; rfl
  | cons p ps ih =>
    intro st
    rw [List.foldl_cons, ih, paragraphStep_breaks]

theorem paraFold_footer (ph : Nat) (wrap : String → List String)
    (paras : List String) : ∀ st : PDFState,
    (paras.foldl (paragraphStep ph wrap) st).footer = st.footer := by
  induction paras with
  | nil => intro st; rfl
  | cons p ps ih =>
    intro st
    rw [List.foldl_cons, ih, paragraphStep_footer]

theorem paraFold_y_ge (ph : Nat) (wrap : String → List String)
    (paras : List String) : ∀ st : PDFState, 38 ≤ st.y →
    38 ≤ (paras.foldl (paragraphStep ph wrap) st).y := by
  induction paras with
  | nil => intro st h; exact h
  | cons p ps ih =>
    intro st h
    rw [List.foldl_cons]
    exact ih _ (paragraphStep_y_ge ph wrap st p h)

theorem paraFold_count (ph : Nat) (wrap : String → List String)
    (paras : List String) : ∀ st : PDFState,
    (paras.foldl (paragraphStep ph wrap) st).pages = st.pages →
    st.y + 6 * ((paras.map (paraLines wrap)).sum) ≤
      (paras.foldl (paragraphStep ph wrap) st).y ∧
    (((paras.map (paraLines wrap)).sum) ≠ 0 →
      st.y + 6 * (((paras.map (paraLines wrap)).sum) - 1) ≤ ph - 30) := by
  induction paras with
  | nil =>
    intro st _
    exact ⟨by simp, fun h => absurd (by simp) h⟩
  | cons p ps ih =>
    intro st hpg
    rw [List.foldl_cons] at hpg
    have h1 := paragraphStep_pages_le ph wrap st p
    have h2 := paraFold_pages_le ph wrap ps (paragraphStep ph wrap st p)
    have hpg1 : (paragraphStep ph wrap st p).pages = st.pages := by omega
    obtain ⟨s1, s2⟩ := paragraphStep_count ph wrap st p hpg1
    have hpg2 : (ps.foldl (paragraphStep ph wrap) (paragraphStep ph wrap st p)).pages =
        (paragraphStep ph wrap st p).pages := by omega
    obtain ⟨i1, i2⟩ := ih (paragraphStep ph wrap st p) hpg2
    rw [List.foldl_cons, List.map_cons, List.sum_cons]
    constructor
    · omega
    · intro hk
      by_cases hS : (ps.map (paraLines wrap)).sum = 0
      · have := s2 (by omega)
        omega
      · have := i2 hS
        omega

theorem breakStep_breaks (mode : Mode) (idx : Nat) (st : PDFState) :
    (breakStep mode idx st).breaks = st.breaks ++
      [(decide (0 < idx) || decide (mode = Mode.ebook)) && decide (50 < st.y)] := by
  dsimp only [breakStep]

theorem breakStep_pages_le (mode : Mode) (idx : Nat) (st : PDFState) :
    st.pages ≤ (breakStep mode idx st).pages := by
  dsimp only [breakStep]
  split
  · show st.pages ≤ st.pages + 1
    omega
  · exact Nat.le_refl _

theorem breakStep_footer (mode : Mode) (idx : Nat) (st : PDFState) :
    (breakStep mode idx st).footer = st.footer := by
  dsimp only [breakStep]
  split <;> rfl

theorem breakStep_drawn (mode : Mode) (idx : Nat) (st : PDFState) :
    (breakStep mode idx st).drawn = st.drawn := by
  dsimp only [breakStep]
  split <;> rfl

theorem breakStep_y_ge (mode : Mode) (idx : Nat) (st : PDFState)
    (h : 30 ≤ st.y) : 30 ≤ (breakStep mode idx st).y := by
  dsimp only [breakStep]
  split
  · exact Nat.le_refl _
  · exact h

theorem titleStep_pages_le (ph : Nat) (wrap : String → List String)
    (st : PDFState) (ch : Chapter) :
    st.pages ≤ (titleStep ph wrap st ch).pages := by
  unfold titleStep
  rw [addSpace_pages]
  exact drawList_pages_le ph 12 _ st

theorem titleStep_breaks (ph : Nat) (wrap : String → List String)
    (st : PDFState) (ch : Chapter) :
    (titleStep ph wrap st ch).breaks = st.breaks := by
  unfold titleStep
  rw [addSpace_breaks, drawList_breaks]

theorem titleStep_footer (ph : Nat) (wrap : String → List String)
    (st : PDFState) (ch : Chapter) :
    (titleStep ph wrap st ch).footer = st.footer := by
  unfold titleStep
  rw [addSpace_footer, drawList_footer]

theorem titleStep_y_ge (ph : Nat) (wrap : String → List String)
    (st : PDFState) (ch : Chapter) (h : 30 ≤ st.y) :
    38 ≤ (titleStep ph wrap st ch).y := by
  unfold titleStep
  rw [addSpace_y]
  have := drawList_y_ge30 ph 12 (wrap (sanitizeTitle ch.title)) st h
  omega

theorem chapterStep_pages_le (ph : Nat) (wrap : String → List String)
    (mode : Mode) (idx : Nat) (st : PDFState) (ch : Chapter) :
    st.pages ≤ (chapterStep ph wrap mode idx st ch).pages := by
  unfold chapterStep bodyStep
  rw [addSpace_pages]
  calc st.pages ≤ (breakStep mode idx st).pages := breakStep_pages_le mode idx st
    _ ≤ (titleStep ph wrap (breakStep mode idx st) ch).pages :=
      titleStep_pages_le ph wrap _ ch
    _ ≤ _ := paraFold_pages_le ph wrap _ _

theorem chapterStep_footer (ph : Nat) (wrap : String → List String)
    (mode : Mode) (idx : Nat) (st : PDFState) (ch : Chapter) :
    (chapterStep ph wrap mode idx st ch).footer = st.footer := by
  unfold chapterStep bodyStep
  rw [addSpace_footer, paraFold_footer, titleStep_footer, breakStep_footer]

theorem chapterStep_breaks (ph : Nat) (wrap : String → List String)
    (mode : Mode) (idx : Nat) (st : PDFState) (ch : Chapter) :
    (chapterStep ph wrap mode idx st ch).breaks = st.breaks ++
      [(decide (0 < idx) || decide (mode = Mode.ebook)) && decide (50 < st.y)] := by
  unfold chapterStep bodyStep
  rw [addSpace_breaks, paraFold_breaks, titleStep_breaks, breakStep_breaks]

theorem chapterStep_y_ge (ph : Nat) (wrap : String → List String)
    (mode : Mode) (idx : Nat) (st : PDFState) (ch : Chapter) (h : 30 ≤ st.y) :
    53 ≤ (chapterStep ph wrap mode idx st ch).y := by
  unfold chapterStep bodyStep
  rw [addSpace_y]
  have h1 := breakStep_y_ge mode idx st h
  have h2 := titleStep_y_ge ph wrap (breakStep mode idx st) ch h1
  have h3 := paraFold_y_ge ph wrap (bodyParas ch.content) _ h2
  omega

theorem chapterStep_pages_big (ph : Nat) (wrap : String → List String)
    (mode : Mode) (idx : Nat) (st : PDFState) (ch : Chapter)
    (hy : 30 ≤ st.y) (hK : ph - 60 < 6 * blockWrappedLines wrap ch) :
    st.pages < (chapterStep ph wrap mode idx st ch).pages := by
  by_contra hle
  push_neg at hle
  have h0 := chapterStep_pages_le ph wrap mode idx st ch
  have heq : (chapterStep ph wrap mode idx st ch).pages = st.pages := le_antisymm hle h0
  have h1 := breakStep_pages_le mode idx st
  have h2 := titleStep_pages_le ph wrap (breakStep mode idx st) ch
  have h3 := paraFold_pages_le ph wrap (bodyParas ch.content)
    (titleStep ph wrap (breakStep mode idx st) ch)
  have h4 : (chapterStep ph wrap mode idx st ch).pages =
      ((bodyParas ch.content).foldl (paragraphStep ph wrap)
        (titleStep ph wrap (breakStep mode idx st) ch)).pages := by
    unfold chapterStep bodyStep
    rw [addSpace_pages]
  have hfold : ((bodyParas ch.content).foldl (paragraphStep ph wrap)
      (titleStep ph wrap (breakStep mode idx st) ch)).pages =
      (titleStep ph wrap (breakStep mode idx st) ch).pages := by omega
  obtain ⟨c1, c2⟩ := paraFold_count ph wrap (bodyParas ch.content) _ hfold
  have hsum : ((bodyParas ch.content).map (paraLines wrap)).sum =
      blockWrappedLines wrap ch := rfl
  rw [hsum] at c1 c2
  have hKnz : blockWrappedLines wrap ch ≠ 0 := by omega
  have hyt := titleStep_y_ge ph wrap (breakStep mode idx st) ch
    (breakStep_y_ge mode idx st hy)
  have := c2 hKnz
  omega

theorem chaptersGo_pages_le (ph : Nat) (wrap : String → List String)
    (mode : Mode) (l : List Chapter) : ∀ (idx : Nat) (st : PDFState),
    st.pages ≤ (chaptersGo ph wrap mode idx l st).pages := by
  induction l with
  | nil => intro idx st; exact Nat.le_refl _
  | cons ch rest ih =>
    intro idx st
    rw [chaptersGo]
    exact le_trans (chapterStep_pages_le ph wrap mode idx st ch) (ih _ _)

theorem chaptersGo_footer (ph : Nat) (wrap : String → List String)
    (mode : Mode) (l : List Chapter) : ∀ (idx : Nat) (st : PDFState),
    (chaptersGo ph wrap mode idx l st).footer = st.footer := by
  induction l with
  | nil => intro idx st; rfl
  | cons ch rest ih =>
    intro idx st
    rw [chaptersGo, ih, chapterStep_footer]

theorem chaptersGo_breaks (ph : Nat) (wrap : String → List String)
    (mode : Mode) (l : List Chapter) : ∀ (idx : Nat) (st : PDFState),
    (idx = 0 → st.y = 30) → (0 < idx → 53 ≤ st.y) →
    (chaptersGo ph wrap mode idx l st).breaks =
      st.breaks ++ (List.range l.length).map (fun j => decide (0 < idx + j)) := by
  induction l with
  | nil => intro idx st _ _; simp [chaptersGo]
  | cons ch rest ih =>
    intro idx st h0 hpos
    have hy30 : 30 ≤ st.y := by
      rcases Nat.eq_zero_or_pos idx with h | h
      · rw [h0 h]
      · have := hpos h
        omega
    have hfired : ((decide (0 < idx) || decide (mode = Mode.ebook)) &&
        decide (50 < st.y)) = decide (0 < idx) := by
      rcases Nat.eq_zero_or_pos idx with h | h
      · subst h
        rw [h0 rfl]
        simp
      · have h53 := hpos h
        have h50 : 50 < st.y := by omega
        simp [h, h50]
    rw [chaptersGo,
      ih (idx + 1) (chapterStep ph wrap mode idx st ch)
        (fun hh => absurd hh (Nat.succ_ne_zero idx))
        (fun _ => chapterStep_y_ge ph wrap mode idx st ch hy30),
      chapterStep_breaks, hfired]
    rw [List.append_assoc]
    congr 1
    rw [List.length_cons, List.range_succ_eq_map, List.map_cons, List.map_map,
      List.singleton_append]
    congr 1
    apply List.map_congr_left
    intro j _
    show decide (0 < idx + 1 + j) = decide (0 < idx + Nat.succ j)
    have hjj : idx + 1 + j = idx + Nat.succ j := by omega
    rw [hjj]

theorem chaptersGo_big (ph : Nat) (wrap : String → List String)
    (mode : Mode) (l : List Chapter) : ∀ (idx : Nat) (st : PDFState),
    30 ≤ st.y → 1 ≤ st.pages →
    (∃ ch ∈ l, ph - 60 < 6 * blockWrappedLines wrap ch) →
    2 ≤ (chaptersGo ph wrap mode idx l st).pages := by
  induction l with
  | nil =>
    intro idx st _ _ hex
    obtain ⟨ch, hch, _⟩ := hex
    exact absurd hch (List.not_mem_nil ch)
  | cons c rest ih =>
    intro idx st hy hp hex
    rw [chaptersGo]
    obtain ⟨ch, hch, hK⟩ := hex
    rcases List.mem_cons.mp hch with hc | hc
    · subst hc
      have hbig := chapterStep_pages_big ph wrap mode idx st ch hy hK
      have := chaptersGo_pages_le ph wrap mode rest (idx + 1)
        (chapterStep ph wrap mode idx st ch)
      omega
    · exact ih (idx + 1) (chapterStep ph wrap mode idx st c)
        (by have := chapterStep_y_ge ph wrap mode idx st c hy; omega)
        (le_trans hp (chapterStep_pages_le ph wrap mode idx st c))
        ⟨ch, hc, hK⟩

/-! ## Drawn-line bound -/

theorem drawLn_drawnOK (ph adv : Nat) (st : PDFState) (h60 : 60 ≤ ph)
    (h : ∀ e ∈ st.drawn, e.2 ≤ ph - 30) :
    ∀ e ∈ (drawLn ph adv st).drawn, e.2 ≤ ph - 30 := by
  unfold drawLn
  by_cases hb : ph - 30 < st.y
  · rw [if_pos hb]
    intro e he
    rcases List.mem_append.mp he with he' | he'
    · exact h e he'
    · rw [List.mem_singleton.mp he']
      show (30 : Nat) ≤ ph - 30
      omega
  · rw [if_neg hb]
    intro e he
    rcases List.mem_append.mp he with he' | he'
    · exact h e he'
    · rw [List.mem_singleton.mp he']
      show st.y ≤ ph - 30
      omega

theorem drawList_drawnOK (ph adv : Nat) (lines : List String) (h60 : 60 ≤ ph) :
    ∀ st : PDFState, (∀ e ∈ st.drawn, e.2 ≤ ph - 30) →
    ∀ e ∈ (drawList ph adv lines st).drawn, e.2 ≤ ph - 30 := by
  induction lines with
  | nil => intro st h; exact h
  | cons l ls ih =>
    intro st h
    exact ih (drawLn ph adv st) (drawLn_drawnOK ph adv st h60 h)

theorem paragraphStep_drawnOK (ph : Nat) (wrap : String → List String)
    (st : PDFState) (para : String) (h60 : 60 ≤ ph)
    (h : ∀ e ∈ st.drawn, e.2 ≤ ph - 30) :
    ∀ e ∈ (paragraphStep ph wrap st para).drawn, e.2 ≤ ph - 30 := by
  by_cases hb : jsTrim para = ""
  · rw [paragraphStep_blank ph wrap st para hb]
    exact h
  · by_cases hH : isHeaderPara para = true
    · rw [paragraphStep_header ph wrap st para hb hH, addSpace_drawn]
      exact drawList_drawnOK ph 8 _ h60 (addSpace 8 st) (by rw [addSpace_drawn]; exact h)
    · rw [paragraphStep_nonheader ph wrap st para hb (Bool.not_eq_true _ |>.mp hH),
        addSpace_drawn]
      exact drawList_drawnOK ph 6 _ h60 st h

theorem paraFold_drawnOK (ph : Nat) (wrap : String → List String)
    (paras : List String) (h60 : 60 ≤ ph) : ∀ st : PDFState,
    (∀ e ∈ st.drawn, e.2 ≤ ph - 30) →
    ∀ e ∈ (paras.foldl (paragraphStep ph wrap) st).drawn, e.2 ≤ ph - 30 := by
  induction paras with
  | nil => intro st h; exact h
  | cons p ps ih =>
    intro st h
    rw [List.foldl_cons]
    exact ih (paragraphStep ph wrap st p) (paragraphStep_drawnOK ph wrap st p h60 h)

theorem chapterStep_drawnOK (ph : Nat) (wrap : String → List String)
    (mode : Mode) (idx : Nat) (st : PDFState) (ch : Chapter) (h60 : 60 ≤ ph)
    (h : ∀ e ∈ st.drawn, e.2 ≤ ph - 30) :
    ∀ e ∈ (chapterStep ph wrap mode idx st ch).drawn, e.2 ≤ ph - 30 := by
  unfold chapterStep bodyStep titleStep
  rw [addSpace_drawn]
  apply paraFold_drawnOK ph wrap (bodyParas ch.content) h60
  rw [addSpace_drawn]
  apply drawList_drawnOK ph 12 _ h60
  rw [breakStep_drawn]
  exact h

theorem chaptersGo_drawnOK (ph : Nat) (wrap : String → List String)
    (mode : Mode) (l : List Chapter) (h60 : 60 ≤ ph) : ∀ (idx : Nat) (st : PDFState),
    (∀ e ∈ st.drawn, e.2 ≤ ph - 30) →
    ∀ e ∈ (chaptersGo ph wrap mode idx l st).drawn, e.2 ≤ ph - 30 := by
  induction l with
  | nil => intro idx st h; exact h
  | cons ch rest ih =>
    intro idx st h
    rw [chaptersGo]
    exact ih (idx + 1) (chapterStep ph wrap mode idx st ch)
      (chapterStep_drawnOK ph wrap mode idx st ch h60 h)

theorem footerStep_footer_pos (ph : Nat) (st : PDFState) :
    ∀ e ∈ (footerStep ph st).footer, e.2 = ph - 10 := by
  intro e he
  simp only [footerStep] at he
  rw [List.mem_flatMap] at he
  obtain ⟨j, _, he⟩ := he
  by_cases h0 : j = 0
  · rw [if_pos h0] at he
    rw [List.mem_singleton.mp he]
  · rw [if_neg h0] at he
    rcases List.mem_cons.mp he with he' | he'
    · rw [he']
    · rw [List.mem_singleton.mp he']

theorem footerStep_drawn (ph : Nat) (st : PDFState) :
    (footerStep ph st).drawn = st.drawn := rfl

theorem footerStep_pages (ph : Nat) (st : PDFState) :
    (footerStep ph st).pages = st.pages := rfl

theorem footerStep_breaks (ph : Nat) (st : PDFState) :
    (footerStep ph st).breaks = st.breaks := rfl

theorem coverStep_fields (st : PDFState) :
    (coverStep st).pages = st.pages + 1 ∧ (coverStep st).y = 30 ∧
    (coverStep st).drawn = st.drawn ∧ (coverStep st).footer = st.footer ∧
    (coverStep st).breaks = st.breaks :=
  ⟨rfl, rfl, rfl, rfl, rfl⟩

/-! ## Claim theorems for the exporter -/

/-- Claim C8 (amended): in both modes the exporter forces a page break
before a block's title exactly for the blocks after the first: the first
block never gets one (in full-document mode it is emitted at the top of
the fresh page created after the cover, where the cursor is 30 and the
`yPosition > 50` guard is false), and every later block always does,
because the cursor ends every block at 53 or more. -/
theorem downloadPDF_breaks (ph : Nat) (wrap : String → List String)
    (chapters : List Chapter) (mode : Mode) :
    (downloadPDF ph wrap chapters mode).breaks =
      (List.range chapters.length).map (fun i => decide (0 < i)) := by
  unfold downloadPDF
  cases mode with
  | ebook =>
    rw [if_pos rfl, footerStep_breaks,
      chaptersGo_breaks ph wrap Mode.ebook chapters 0 (coverStep initPDF)
        (fun _ => rfl) (fun h => absurd h (by omega)),
      show (coverStep initPDF).breaks = ([] : List Bool) from rfl]
    simp
  | chapter =>
    rw [if_neg (by simp),
      chaptersGo_breaks ph wrap Mode.chapter chapters 0 initPDF
        (fun _ => rfl) (fun h => absurd h (by omega)),
      show initPDF.breaks = ([] : List Bool) from rfl]
    simp

/-- Counterexample to C8 as stated: a one-block ebook export forces no
page break before the first block's title — after the cover's page break
the cursor is 30, not past 50 — while the claim requires a break before
every block in full-document mode. -/
theorem downloadPDF_breaks_counterexample :
    (downloadPDF 297 wrapOne [Chapter.mk "T" "x"] Mode.ebook).breaks = [false] := by
  decide

/-- Claim C7 (amended): for every export whose wrapped line count times
the 6-unit line height of some block exceeds the usable page height
(page height minus the 30-unit top and bottom margins), the output spans
at least two pages; every line drawn by the cursor-checked layout loop
sits at or above (page height - 30); the footer lines of ebook mode are
deliberately drawn inside the bottom margin at exactly
(page height - 10). -/
theorem downloadPDF_pagination (ph : Nat) (wrap : String → List String)
    (chapters : List Chapter) (mode : Mode) (ch : Chapter)
    (hph : 60 ≤ ph) (hch : ch ∈ chapters)
    (hK : ph - 60 < 6 * blockWrappedLines wrap ch) :
    (∀ e ∈ (downloadPDF ph wrap chapters mode).drawn, e.2 ≤ ph - 30) ∧
    (∀ e ∈ (downloadPDF ph wrap chapters mode).footer, e.2 = ph - 10) ∧
    2 ≤ (downloadPDF ph wrap chapters mode).pages := by
  unfold downloadPDF
  cases mode with
  | ebook =>
    rw [if_pos rfl]
    refine ⟨?_, footerStep_footer_pos ph _, ?_⟩
    · rw [footerStep_drawn]
      exact chaptersGo_drawnOK ph wrap Mode.ebook chapters hph 0 (coverStep initPDF)
        (by intro e he; exact absurd he (List.not_mem_nil e))
    · rw [footerStep_pages]
      have := chaptersGo_pages_le ph wrap Mode.ebook chapters 0 (coverStep initPDF)
      have hc : (coverStep initPDF).pages = 2 := rfl
      omega
  | chapter =>
    rw [if_neg (by simp)]
    refine ⟨?_, ?_, ?_⟩
    · exact chaptersGo_drawnOK ph wrap Mode.chapter chapters hph 0 initPDF
        (by intro e he; exact absurd he (List.not_mem_nil e))
    · rw [chaptersGo_footer]
      intro e he
      exact absurd he (List.not_mem_nil e)
    · exact chaptersGo_big ph wrap Mode.chapter chapters 0 initPDF
        (by rw [show initPDF.y = 30 from rfl]) (by rw [show initPDF.pages = 1 from rfl])
        ⟨ch, hch, hK⟩

/-- Witness for the amended C7: a single chapter whose body wraps to 50
lines (300 height units, more than the 237 usable units of a 297-unit
page) in section-expansion mode. -/
theorem downloadPDF_pagination_witness :
    (∀ e ∈ (downloadPDF 297 wrapFifty [Chapter.mk "T" "body"] Mode.chapter).drawn,
      e.2 ≤ 297 - 30) ∧
    (∀ e ∈ (downloadPDF 297 wrapFifty [Chapter.mk "T" "body"] Mode.chapter).footer,
      e.2 = 297 - 10) ∧
    2 ≤ (downloadPDF 297 wrapFifty [Chapter.mk "T" "body"] Mode.chapter).pages :=
  downloadPDF_pagination 297 wrapFifty [Chapter.mk "T" "body"] Mode.chapter
    (Chapter.mk "T" "body") (by omega) (List.mem_singleton.mpr rfl) (by decide)

/-- Counterexample to C7 as stated: in a concrete ebook export some drawn
text line (a footer, drawn at page height - 10 = 287) sits below
(page height - bottom margin) = 267, so "no drawn line's vertical
position exceeds page height minus bottom margin" fails once footer
lines are counted. -/
theorem downloadPDF_margin_counterexample :
    ∃ e ∈ (downloadPDF 297 wrapOne [Chapter.mk "T" "x"] Mode.ebook).drawn ++
      (downloadPDF 297 wrapOne [Chapter.mk "T" "x"] Mode.ebook).footer,
      297 - 30 < e.2 := by
  decide

end BookIA
